import Mathlib

/-!
Shallow embedding of the jubatus push-style mixer
(src/jubatus/server/framework/mixer/push_mixer.cpp) and proofs about its
mix-round control flow, the RPC-handler effects and the failure semantics.

Exceptions of the C++ code are modelled with `Except`; the external
collaborators (coordination service, peer RPCs, mixable adapter) are an
oracle record `MixEnv` whose fields give the outcome of each external call.
The local model is represented abstractly as the sequence of diffs that have
been applied through the mixable adapter.
-/

namespace PushMixer

/-- Opaque byte payload: byte_buffer contents and raw msgpack bytes. -/
abbrev Payload := List Nat

/-- Peer identity as in the source: a (host, port) pair. -/
abbrev Peer := String × Int

/-- Exception values, tagged by which C++ catch clauses see them:
jubatus_exception and plain std exceptions both derive from std::exception,
while `other` stands for values visible only to a catch-all clause. -/
inductive Exn where
  | jubatus (msg : String)
  | std (msg : String)
  | other (msg : String)
deriving DecidableEq, Repr

/-- Whether a catch clause for std::exception catches this exception
(jubatus_exception derives from std::exception). -/
def Exn.isStd : Exn → Bool
  | .jubatus _ => true
  | .std _ => true
  | .other _ => false

/-- A received msgpack::object as the handlers see it: whether its type tag is
RAW, the raw bytes (via.raw), and whether msgpack::unpack of those bytes
succeeds. -/
structure MsgObj where
  isRaw : Bool
  raw : Payload
  unpackOk : Bool
deriving DecidableEq, Repr

/-- The push_mixer counter state together with the abstract local model: the
fields counter_, ticktime_ and mix_count_ of the source, plus the sequence of
diffs applied to the model through the mixable adapter. -/
structure MixerState where
  counter : Nat
  ticktime : Nat
  mix_count : Nat
  model : List Payload
deriving DecidableEq, Repr

/-- The state built by the push_mixer constructor: counter_(0), mix_count_(0),
ticktime_(get_clock_time()) and a model with no applied diffs. -/
def initState (t : Nat) : MixerState :=
  { counter := 0, ticktime := t, mix_count := 0, model := [] }

/-- Outcomes of the external collaborators during one round: the
coordination-service membership query run by get_all_nodes, the
filter_candidates policy, the mixable-adapter operations and the per-peer
RPC client calls. An `Except.error` models the call raising a C++
exception. `now` is the value returned by get_clock_time. -/
structure MixEnv where
  query : Except Exn (List Peer)
  filter : List Peer → List Peer
  getArgument : Except Exn Payload
  mixablePull : Payload → Except Exn Payload
  mixablePush : Payload → Except Exn Unit
  rpcPull : Peer → Payload → Except Exn MsgObj
  rpcGetPullArgument : Peer → Except Exn MsgObj
  rpcPush : Peer → Payload → Except Exn Unit
  now : Nat

/-- The RAW type test and msgpack::unpack step shared by the pull and push
handlers: msgpack::type_error when the object is not RAW, an unpack error
when the raw bytes do not parse, otherwise the unpacked payload. -/
def checkUnpack (obj : MsgObj) : Except Exn Payload :=
  if obj.isRaw = false then .error (Exn.std "type_error")
  else if obj.unpackOk = false then .error (Exn.std "unpack_error")
  else .ok obj.raw

/-- push_communication_impl::update_members: run the membership query
(common::get_all_nodes), replace servers_ and return the list and its size.
The body has no exception handler, so a query exception propagates. -/
def update_members (env : MixEnv) : Except Exn (List Peer × Nat) :=
  match env.query with
  | .error e => .error e
  | .ok nodes => .ok (nodes, nodes.length)

/-- push_mixer::get_pull_argument handler: serializes mixable->get_argument;
it never writes counter_, ticktime_, mix_count_ or the model. -/
def get_pull_argument (env : MixEnv) (st : MixerState) :
    MixerState × Except Exn Payload :=
  (st, env.getArgument)

/-- Result part of the push_mixer::pull handler: type check, unpack, then
mixable->pull on the unpacked argument. -/
def pullResult (env : MixEnv) (obj : MsgObj) : Except Exn Payload :=
  match checkUnpack obj with
  | .error e => .error e
  | .ok arg => env.mixablePull arg

/-- push_mixer::pull handler: raises unless the argument object is RAW and
unpacks, then returns mixable->pull of the argument; it never writes
counter_, ticktime_, mix_count_ or the model. -/
def pull (env : MixEnv) (obj : MsgObj) (st : MixerState) :
    MixerState × Except Exn Payload :=
  (st, pullResult env obj)

/-- Result part of the push_mixer::push handler: type check, unpack, call
mixable->push, return 0. -/
def pushResult (env : MixEnv) (obj : MsgObj) : Except Exn Int :=
  match checkUnpack obj with
  | .error e => .error e
  | .ok d =>
    match env.mixablePush d with
    | .error e => .error e
    | .ok _ => .ok 0

/-- push_mixer::push handler: raises unless the diff object is RAW and
unpacks, applies the diff via mixable->push, then resets counter_ to 0 and
ticktime_ to the current time and returns 0. On an exception the state is
unchanged. -/
def push (env : MixEnv) (obj : MsgObj) (st : MixerState) :
    MixerState × Except Exn Int :=
  match pushResult env obj with
  | .error e => (st, .error e)
  | .ok n =>
    ({ st with model := st.model ++ [obj.raw], counter := 0, ticktime := env.now },
     .ok n)

/-- push_mixer::updated: increment counter_ and notify the condition when
counter_ >= count_threshold_ or now - ticktime_ > tick_threshold_; the
source has no positivity guard on either threshold here (the guards appear
only in mixer_loop). Returns the new state and whether it notified. -/
def updated (count_threshold tick_threshold : Nat) (now : Nat)
    (st : MixerState) : MixerState × Bool :=
  let st' := { st with counter := st.counter + 1 }
  (st', decide (count_threshold ≤ st'.counter ∨ tick_threshold < now - st.ticktime))

/-- Observable calls issued during a mix round: the three per-peer RPC client
calls and the three mixable-adapter operations. -/
inductive Event where
  | adapterGetArgument
  | rpcPull (p : Peer) (arg : Payload)
  | rpcGetPullArgument (p : Peer)
  | adapterPull (arg : Payload)
  | rpcPush (p : Peer) (diff : Payload)
  | adapterPush (diff : Payload)
deriving DecidableEq, Repr

/-- Whether an event is an RPC addressed to peer `p`. -/
def touches (p : Peer) : Event → Bool
  | .rpcPull q _ => q = p
  | .rpcGetPullArgument q => q = p
  | .rpcPush q _ => q = p
  | _ => false

/-- Adapter events issued while the pull handler runs on `obj`:
mixable->pull is reached only when the RAW and unpack checks pass. -/
def pullEvents (obj : MsgObj) : List Event :=
  match checkUnpack obj with
  | .error _ => []
  | .ok arg => [Event.adapterPull arg]

/-- Adapter events issued while the push handler runs on `obj`:
mixable->push is reached only when the RAW and unpack checks pass. -/
def pushEvents (obj : MsgObj) : List Event :=
  match checkUnpack obj with
  | .error _ => []
  | .ok d => [Event.adapterPush d]

/-- The body of one iteration of the candidate loop in push_mixer::mix for
candidate `she`, except for its writes to the mixer state: local
get_pull_argument (mixable->get_argument), RPC pull, RPC get_pull_argument,
local pull (mixable->pull after the RAW/unpack checks), RPC push, and the
checks and mixable->push call of the local push. None of these steps reads
the mixer state, so this part is a function of the environment alone. It
returns the events issued up to the point reached and either the received
her_diff object together with the byte counts added to s_pull and s_push, or
the exception that aborted the iteration. -/
def exchangeCore (env : MixEnv) (she : Peer) :
    List Event × Except Exn (MsgObj × Nat × Nat) :=
  match env.getArgument with
  | .error e => ([Event.adapterGetArgument], .error e)
  | .ok my_args =>
    match env.rpcPull she my_args with
    | .error e => ([Event.adapterGetArgument, Event.rpcPull she my_args], .error e)
    | .ok her_diff =>
      match env.rpcGetPullArgument she with
      | .error e =>
        ([Event.adapterGetArgument, Event.rpcPull she my_args,
          Event.rpcGetPullArgument she], .error e)
      | .ok her_args =>
        match pullResult env her_args with
        | .error e =>
          ([Event.adapterGetArgument, Event.rpcPull she my_args,
            Event.rpcGetPullArgument she] ++ pullEvents her_args, .error e)
        | .ok my_diff =>
          match env.rpcPush she my_diff with
          | .error e =>
            ([Event.adapterGetArgument, Event.rpcPull she my_args,
              Event.rpcGetPullArgument she] ++ pullEvents her_args ++
             [Event.rpcPush she my_diff], .error e)
          | .ok _ =>
            match pushResult env her_diff with
            | .error e =>
              ([Event.adapterGetArgument, Event.rpcPull she my_args,
                Event.rpcGetPullArgument she] ++ pullEvents her_args ++
               [Event.rpcPush she my_diff] ++ pushEvents her_diff, .error e)
            | .ok _ =>
              ([Event.adapterGetArgument, Event.rpcPull she my_args,
                Event.rpcGetPullArgument she] ++ pullEvents her_args ++
               [Event.rpcPush she my_diff] ++ pushEvents her_diff,
               .ok (her_diff, her_diff.raw.length, my_diff.length))

/-- One iteration of the candidate loop in push_mixer::mix: the steps of
exchangeCore, with the state effect of the final local push handler applied
when the iteration completes (her diff applied to the model, counter_ and
ticktime_ reset); on an exception the state is left as it was. -/
def exchange (env : MixEnv) (she : Peer) (st : MixerState) :
    List Event × MixerState × Except Exn (Nat × Nat) :=
  match exchangeCore env she with
  | (evs, .error e) => (evs, st, .error e)
  | (evs, .ok (her_diff, dp, dq)) => (evs, (push env her_diff st).1, .ok (dp, dq))

/-- The candidate loop of push_mixer::mix: iterate `exchange` over the
candidates in list order, accumulating events and the s_pull and s_push byte
counts and stopping at the first exception. -/
def mixLoop (env : MixEnv) : List Peer → MixerState → Nat → Nat →
    List Event × MixerState × Except Exn (Nat × Nat)
  | [], st, sPull, sPush => ([], st, .ok (sPull, sPush))
  | she :: rest, st, sPull, sPush =>
    match exchange env she st with
    | (evs, st', .error e) => (evs, st', .error e)
    | (evs, st', .ok (dp, dq)) =>
      match mixLoop env rest st' (sPull + dp) (sPush + dq) with
      | (evs', st'', r) => (evs ++ evs', st'', r)

/-- push_mixer::mix: refresh membership (this call sits outside the try
block, so its exception propagates); on zero servers log a warning and
return; otherwise run the candidate loop inside a try whose catch clause for
std::exception logs "mix failed" and returns without advancing mix_count_;
when the loop completes normally (also with an empty candidate list)
increment mix_count_. Returns the events issued, the final state, and
`Except.error e` exactly when an exception propagates out of mix. -/
def mix (env : MixEnv) (st : MixerState) :
    List Event × MixerState × Except Exn Unit :=
  match update_members env with
  | .error e => ([], st, .error e)
  | .ok (nodes, n) =>
    if n = 0 then ([], st, .ok ())
    else
      match mixLoop env (env.filter nodes) st 0 0 with
      | (evs, st', .error e) =>
        if e.isStd then (evs, st', .ok ()) else (evs, st', .error e)
      | (evs, st', .ok _) =>
        (evs, { st' with mix_count := st'.mix_count + 1 }, .ok ())

/-- push_mixer::do_mix: reset counter_ and ticktime_, run mix, and return
true when mix returns normally; the three catch clauses (jubatus_exception,
std::exception, catch-all) turn any exception escaping mix into false. -/
def do_mix (env : MixEnv) (st : MixerState) :
    List Event × MixerState × Bool :=
  match mix env { st with counter := 0, ticktime := env.now } with
  | (evs, st', .ok _) => (evs, st', true)
  | (evs, st', .error _) => (evs, st', false)

/-- The events issued by one exchange with `she`. -/
def exchangeTrace (env : MixEnv) (she : Peer) : List Event :=
  (exchangeCore env she).1

/-- The outcome of one exchange with `she`: the byte counts it adds on
completion, or the exception that aborted it. -/
def exchangeResult (env : MixEnv) (she : Peer) : Except Exn (Nat × Nat) :=
  match (exchangeCore env she).2 with
  | .error e => .error e
  | .ok (_, dp, dq) => .ok (dp, dq)

/-- The diffs one exchange with `she` applies to the local model: empty when
the exchange raises, otherwise the received raw diff. -/
def appliedDiffs (env : MixEnv) (she : Peer) : List Payload :=
  match (exchangeCore env she).2 with
  | .error _ => []
  | .ok (her_diff, _, _) => [her_diff.raw]

/-- State transformation of one exchange: unchanged when it raised, else the
effect of the final local push (received diff applied, counter_ and
ticktime_ reset). -/
def pushState (env : MixEnv) (she : Peer) (st : MixerState) : MixerState :=
  match exchangeResult env she with
  | .error _ => st
  | .ok _ =>
    { st with
      model := st.model ++ appliedDiffs env she
      counter := 0
      ticktime := env.now }

/-- State after processing a list of candidates in order. -/
def roundState (env : MixEnv) (cs : List Peer) (st : MixerState) : MixerState :=
  cs.foldl (fun s p => pushState env p s) st

/-- Exhaustive enumeration of the control paths of exchangeCore: which
external call failed first (if any) and the events and outcome produced. -/
theorem exchangeCore_cases (env : MixEnv) (she : Peer) :
    (∃ e, env.getArgument = Except.error e ∧
      exchangeCore env she = ([Event.adapterGetArgument], Except.error e)) ∨
    (∃ a e, env.getArgument = Except.ok a ∧ env.rpcPull she a = Except.error e ∧
      exchangeCore env she =
        ([Event.adapterGetArgument, Event.rpcPull she a], Except.error e)) ∨
    (∃ a hd e, env.getArgument = Except.ok a ∧ env.rpcPull she a = Except.ok hd ∧
      env.rpcGetPullArgument she = Except.error e ∧
      exchangeCore env she =
        ([Event.adapterGetArgument, Event.rpcPull she a,
          Event.rpcGetPullArgument she], Except.error e)) ∨
    (∃ a hd ha e, env.getArgument = Except.ok a ∧ env.rpcPull she a = Except.ok hd ∧
      env.rpcGetPullArgument she = Except.ok ha ∧ pullResult env ha = Except.error e ∧
      exchangeCore env she =
        ([Event.adapterGetArgument, Event.rpcPull she a,
          Event.rpcGetPullArgument she] ++ pullEvents ha, Except.error e)) ∨
    (∃ a hd ha m e, env.getArgument = Except.ok a ∧ env.rpcPull she a = Except.ok hd ∧
      env.rpcGetPullArgument she = Except.ok ha ∧ pullResult env ha = Except.ok m ∧
      env.rpcPush she m = Except.error e ∧
      exchangeCore env she =
        ([Event.adapterGetArgument, Event.rpcPull she a,
          Event.rpcGetPullArgument she] ++ pullEvents ha ++
         [Event.rpcPush she m], Except.error e)) ∨
    (∃ a hd ha m e, env.getArgument = Except.ok a ∧ env.rpcPull she a = Except.ok hd ∧
      env.rpcGetPullArgument she = Except.ok ha ∧ pullResult env ha = Except.ok m ∧
      env.rpcPush she m = Except.ok () ∧ pushResult env hd = Except.error e ∧
      exchangeCore env she =
        ([Event.adapterGetArgument, Event.rpcPull she a,
          Event.rpcGetPullArgument she] ++ pullEvents ha ++
         [Event.rpcPush she m] ++ pushEvents hd, Except.error e)) ∨
    (∃ a hd ha m, env.getArgument = Except.ok a ∧ env.rpcPull she a = Except.ok hd ∧
      env.rpcGetPullArgument she = Except.ok ha ∧ pullResult env ha = Except.ok m ∧
      env.rpcPush she m = Except.ok () ∧ pushResult env hd = Except.ok 0 ∧
      exchangeCore env she =
        ([Event.adapterGetArgument, Event.rpcPull she a,
          Event.rpcGetPullArgument she] ++ pullEvents ha ++
         [Event.rpcPush she m] ++ pushEvents hd,
         Except.ok (hd, hd.raw.length, m.length))) := by
  rcases hga : env.getArgument with e | a
  · exact Or.inl ⟨e, rfl, by simp [exchangeCore, hga]⟩
  rcases hrp : env.rpcPull she a with e | hd
  · exact Or.inr (Or.inl ⟨a, e, rfl, hrp, by simp [exchangeCore, hga, hrp]⟩)
  rcases hrg : env.rpcGetPullArgument she with e | ha
  · exact Or.inr (Or.inr (Or.inl ⟨a, hd, e, rfl, hrp, rfl,
      by simp [exchangeCore, hga, hrp, hrg]⟩))
  rcases hpl : pullResult env ha with e | m
  · exact Or.inr (Or.inr (Or.inr (Or.inl ⟨a, hd, ha, e, rfl, hrp, rfl, hpl,
      by simp [exchangeCore, hga, hrp, hrg, hpl]⟩)))
  rcases hps : env.rpcPush she m with e | u
  · exact Or.inr (Or.inr (Or.inr (Or.inr (Or.inl ⟨a, hd, ha, m, e, rfl, hrp, rfl,
      hpl, hps, by simp [exchangeCore, hga, hrp, hrg, hpl, hps]⟩))))
  rcases hpu : pushResult env hd with e | n
  · exact Or.inr (Or.inr (Or.inr (Or.inr (Or.inr (Or.inl ⟨a, hd, ha, m, e, rfl,
      hrp, rfl, hpl, hps, hpu, by simp [exchangeCore, hga, hrp, hrg, hpl, hps, hpu]⟩)))))
  · have hn : n = 0 := by
      unfold pushResult at hpu
      rcases hcu : checkUnpack hd with e2 | d
      · rw [hcu] at hpu
        simp at hpu
      · rw [hcu] at hpu
        simp only [] at hpu
        rcases hmp : env.mixablePush d with e3 | u3
        · rw [hmp] at hpu
          simp at hpu
        · rw [hmp] at hpu
          simp at hpu
          omega
    subst hn
    exact Or.inr (Or.inr (Or.inr (Or.inr (Or.inr (Or.inr ⟨a, hd, ha, m, rfl,
      hrp, rfl, hpl, hps, hpu, by simp [exchangeCore, hga, hrp, hrg, hpl, hps, hpu]⟩)))))

theorem checkUnpack_ok_val (obj : MsgObj) (d : Payload)
    (h : checkUnpack obj = Except.ok d) : d = obj.raw := by
  unfold checkUnpack at h
  split_ifs at h
  all_goals simp_all

theorem checkUnpack_of_pullResult (env : MixEnv) (obj : MsgObj) (m : Payload)
    (h : pullResult env obj = Except.ok m) : checkUnpack obj = Except.ok obj.raw := by
  unfold pullResult at h
  rcases hcu : checkUnpack obj with e | d
  · rw [hcu] at h
    simp at h
  · have hv := checkUnpack_ok_val obj d hcu
    subst hv
    rfl

theorem checkUnpack_of_pushResult (env : MixEnv) (obj : MsgObj) (n : Int)
    (h : pushResult env obj = Except.ok n) : checkUnpack obj = Except.ok obj.raw := by
  unfold pushResult at h
  rcases hcu : checkUnpack obj with e | d
  · rw [hcu] at h
    simp at h
  · have hv := checkUnpack_ok_val obj d hcu
    subst hv
    rfl

theorem exchange_unfold (env : MixEnv) (she : Peer) (st : MixerState) :
    exchange env she st =
      (exchangeTrace env she, pushState env she st, exchangeResult env she) := by
  rcases exchangeCore_cases env she with
    ⟨e, hga, hc⟩ | ⟨a, e, hga, hrp, hc⟩ | ⟨a, hd, e, hga, hrp, hrg, hc⟩ |
    ⟨a, hd, ha, e, hga, hrp, hrg, hpl, hc⟩ |
    ⟨a, hd, ha, m, e, hga, hrp, hrg, hpl, hps, hc⟩ |
    ⟨a, hd, ha, m, e, hga, hrp, hrg, hpl, hps, hpu, hc⟩ |
    ⟨a, hd, ha, m, hga, hrp, hrg, hpl, hps, hpu, hc⟩
  · simp [exchange, exchangeTrace, exchangeResult, appliedDiffs, pushState, hc]
  · simp [exchange, exchangeTrace, exchangeResult, appliedDiffs, pushState, hc]
  · simp [exchange, exchangeTrace, exchangeResult, appliedDiffs, pushState, hc]
  · simp [exchange, exchangeTrace, exchangeResult, appliedDiffs, pushState, hc]
  · simp [exchange, exchangeTrace, exchangeResult, appliedDiffs, pushState, hc]
  · simp [exchange, exchangeTrace, exchangeResult, appliedDiffs, pushState, hc]
  · simp [exchange, exchangeTrace, exchangeResult, appliedDiffs, pushState, push, hc, hpu]

theorem pushState_mix_count (env : MixEnv) (she : Peer) (st : MixerState) :
    (pushState env she st).mix_count = st.mix_count := by
  unfold pushState
  rcases exchangeResult env she with e | v <;> simp

theorem roundState_cons (env : MixEnv) (p : Peer) (rest : List Peer)
    (st : MixerState) :
    roundState env (p :: rest) st = roundState env rest (pushState env p st) := rfl

theorem roundState_mix_count (env : MixEnv) (cs : List Peer) :
    ∀ st : MixerState, (roundState env cs st).mix_count = st.mix_count := by
  induction cs with
  | nil => intro st; rfl
  | cons p rest ih =>
    intro st
    rw [roundState_cons, ih (pushState env p st), pushState_mix_count]

theorem roundState_model (env : MixEnv) (cs : List Peer)
    (h : ∀ p ∈ cs, ∃ v, exchangeResult env p = Except.ok v) :
    ∀ st : MixerState, (roundState env cs st).model =
      st.model ++ cs.flatMap (fun q => appliedDiffs env q) := by
  induction cs with
  | nil => intro st; simp [roundState]
  | cons p rest ih =>
    intro st
    rw [roundState_cons]
    obtain ⟨v, hv⟩ := h p (by simp)
    rw [ih (fun q hq => h q (by simp [hq])) (pushState env p st)]
    have hps : (pushState env p st).model = st.model ++ appliedDiffs env p := by
      unfold pushState
      rw [hv]
    rw [hps]
    simp [List.append_assoc]

theorem mixLoop_all_ok (env : MixEnv) (cs : List Peer)
    (h : ∀ p ∈ cs, ∃ v, exchangeResult env p = Except.ok v) :
    ∀ st sPull sPush, ∃ w, mixLoop env cs st sPull sPush =
      (cs.flatMap (exchangeTrace env), roundState env cs st, Except.ok w) := by
  induction cs with
  | nil =>
    intro st sPull sPush
    exact ⟨(sPull, sPush), by simp [mixLoop, roundState]⟩
  | cons p rest ih =>
    intro st sPull sPush
    obtain ⟨⟨v1, v2⟩, hv⟩ := h p (by simp)
    obtain ⟨w, hw⟩ := ih (fun q hq => h q (by simp [hq]))
      (pushState env p st) (sPull + v1) (sPush + v2)
    refine ⟨w, ?_⟩
    simp only [mixLoop, exchange_unfold, hv, hw]
    simp [roundState_cons]

theorem mixLoop_fail (env : MixEnv) (pre : List Peer) (she : Peer)
    (post : List Peer) (e : Exn)
    (hpre : ∀ p ∈ pre, ∃ v, exchangeResult env p = Except.ok v)
    (hshe : exchangeResult env she = Except.error e) :
    ∀ st sPull sPush, mixLoop env (pre ++ she :: post) st sPull sPush =
      (pre.flatMap (exchangeTrace env) ++ exchangeTrace env she,
       roundState env pre st, Except.error e) := by
  induction pre with
  | nil =>
    intro st sPull sPush
    simp only [List.nil_append, mixLoop, exchange_unfold, hshe]
    simp [roundState, pushState, hshe]
  | cons p rest ih =>
    intro st sPull sPush
    obtain ⟨⟨v1, v2⟩, hv⟩ := hpre p (by simp)
    simp only [List.cons_append, mixLoop, exchange_unfold, hv]
    simp only [List.append_eq]
    rw [ih (fun q hq => hpre q (by simp [hq])) (pushState env p st)
      (sPull + v1) (sPush + v2)]
    simp [roundState_cons]

theorem mixLoop_ok_all (env : MixEnv) (cs : List Peer) :
    ∀ st sPull sPush evs st' v,
      mixLoop env cs st sPull sPush = (evs, st', Except.ok v) →
      ∀ p ∈ cs, ∃ w, exchangeResult env p = Except.ok w := by
  induction cs with
  | nil =>
    intro _ _ _ _ _ _ _ p hp
    exact absurd hp (by simp)
  | cons q rest ih =>
    intro st sPull sPush evs st' v h p hp
    rcases hq : exchangeResult env q with e | w
    · simp only [mixLoop, exchange_unfold, hq] at h
      simp at h
    · obtain ⟨w1, w2⟩ := w
      simp only [mixLoop, exchange_unfold, hq] at h
      rcases hrec : mixLoop env rest (pushState env q st) (sPull + w1) (sPush + w2)
        with ⟨evs2, st2, r2⟩
      rw [hrec] at h
      simp only [Prod.mk.injEq] at h
      obtain ⟨h1, h2, h3⟩ := h
      rcases List.mem_cons.mp hp with hpq | hp2
      · exact ⟨(w1, w2), by rw [hpq]; exact hq⟩
      · rw [h3] at hrec
        exact ih (pushState env q st) (sPull + w1) (sPush + w2) evs2 st2 v hrec p hp2

theorem mem_pullEvents (obj : MsgObj) (ev : Event) (h : ev ∈ pullEvents obj) :
    ∃ arg, ev = Event.adapterPull arg := by
  unfold pullEvents at h
  rcases hcu : checkUnpack obj with e | arg
  · rw [hcu] at h
    simp at h
  · rw [hcu] at h
    simp at h
    exact ⟨arg, h⟩

theorem mem_pushEvents (obj : MsgObj) (ev : Event) (h : ev ∈ pushEvents obj) :
    ∃ d, ev = Event.adapterPush d := by
  unfold pushEvents at h
  rcases hcu : checkUnpack obj with e | d
  · rw [hcu] at h
    simp at h
  · rw [hcu] at h
    simp at h
    exact ⟨d, h⟩

/-- Every event in the trace of one exchange is one of the six call kinds,
and every RPC event in it is addressed to the exchanged-with peer. -/
theorem mem_exchangeTrace (env : MixEnv) (she : Peer) (ev : Event)
    (hev : ev ∈ exchangeTrace env she) :
    ev = Event.adapterGetArgument ∨ (∃ x, ev = Event.rpcPull she x) ∨
    ev = Event.rpcGetPullArgument she ∨ (∃ x, ev = Event.adapterPull x) ∨
    (∃ x, ev = Event.rpcPush she x) ∨ (∃ x, ev = Event.adapterPush x) := by
  rcases exchangeCore_cases env she with
    ⟨e, hga, hc⟩ | ⟨a, e, hga, hrp, hc⟩ | ⟨a, hd, e, hga, hrp, hrg, hc⟩ |
    ⟨a, hd, ha, e, hga, hrp, hrg, hpl, hc⟩ |
    ⟨a, hd, ha, m, e, hga, hrp, hrg, hpl, hps, hc⟩ |
    ⟨a, hd, ha, m, e, hga, hrp, hrg, hpl, hps, hpu, hc⟩ |
    ⟨a, hd, ha, m, hga, hrp, hrg, hpl, hps, hpu, hc⟩ <;>
    unfold exchangeTrace at hev <;> rw [hc] at hev <;> simp at hev
  · tauto
  · tauto
  · tauto
  · rcases hev with hev | hev | hev | hev
    · tauto
    · tauto
    · tauto
    · obtain ⟨x, rfl⟩ := mem_pullEvents ha ev hev
      tauto
  · rcases hev with hev | hev | hev | hev | hev
    · tauto
    · tauto
    · tauto
    · obtain ⟨x, rfl⟩ := mem_pullEvents ha ev hev
      tauto
    · tauto
  · rcases hev with hev | hev | hev | hev | hev | hev
    · tauto
    · tauto
    · tauto
    · obtain ⟨x, rfl⟩ := mem_pullEvents ha ev hev
      tauto
    · tauto
    · obtain ⟨x, rfl⟩ := mem_pushEvents hd ev hev
      tauto
  · rcases hev with hev | hev | hev | hev | hev | hev
    · tauto
    · tauto
    · tauto
    · obtain ⟨x, rfl⟩ := mem_pullEvents ha ev hev
      tauto
    · tauto
    · obtain ⟨x, rfl⟩ := mem_pushEvents hd ev hev
      tauto

theorem touches_exchangeTrace (env : MixEnv) (she q : Peer) (ev : Event)
    (hev : ev ∈ exchangeTrace env she) (ht : touches q ev = true) : q = she := by
  rcases mem_exchangeTrace env she ev hev with
    rfl | ⟨x, rfl⟩ | rfl | ⟨x, rfl⟩ | ⟨x, rfl⟩ | ⟨x, rfl⟩ <;>
    simp [touches] at ht <;> exact ht.symm

/-- One of the exchange steps a-e for candidate `she` raises: the local
get_argument, the RPC pull, the RPC get_pull_argument, the local pull, or
the RPC push fails, i.e. the iteration aborts before its final local push. -/
def failsBeforeLocalPush (env : MixEnv) (she : Peer) : Prop :=
  (∃ e, env.getArgument = Except.error e) ∨
  (∃ a e, env.getArgument = Except.ok a ∧ env.rpcPull she a = Except.error e) ∨
  (∃ a hd e, env.getArgument = Except.ok a ∧ env.rpcPull she a = Except.ok hd ∧
    env.rpcGetPullArgument she = Except.error e) ∨
  (∃ a hd ha e, env.getArgument = Except.ok a ∧ env.rpcPull she a = Except.ok hd ∧
    env.rpcGetPullArgument she = Except.ok ha ∧ pullResult env ha = Except.error e) ∨
  (∃ a hd ha m e, env.getArgument = Except.ok a ∧ env.rpcPull she a = Except.ok hd ∧
    env.rpcGetPullArgument she = Except.ok ha ∧ pullResult env ha = Except.ok m ∧
    env.rpcPush she m = Except.error e)

/-- An exchange that raises in steps a-e produces an exception outcome and a
trace with no adapter push event: mixable->push is never invoked. -/
theorem failsBefore_spec (env : MixEnv) (she : Peer)
    (h : failsBeforeLocalPush env she) :
    (∃ e, exchangeResult env she = Except.error e) ∧
    ∀ d, Event.adapterPush d ∉ exchangeTrace env she := by
  rcases h with ⟨e, hga⟩ | ⟨a, e, hga, hrp⟩ | ⟨a, hd, e, hga, hrp, hrg⟩ |
    ⟨a, hd, ha, e, hga, hrp, hrg, hpl⟩ | ⟨a, hd, ha, m, e, hga, hrp, hrg, hpl, hps⟩
  · have hc : exchangeCore env she = ([Event.adapterGetArgument], Except.error e) := by
      simp [exchangeCore, hga]
    refine ⟨⟨e, by simp [exchangeResult, hc]⟩, ?_⟩
    intro d hd
    unfold exchangeTrace at hd
    rw [hc] at hd
    simp at hd
  · have hc : exchangeCore env she =
        ([Event.adapterGetArgument, Event.rpcPull she a], Except.error e) := by
      simp [exchangeCore, hga, hrp]
    refine ⟨⟨e, by simp [exchangeResult, hc]⟩, ?_⟩
    intro d hd
    unfold exchangeTrace at hd
    rw [hc] at hd
    simp at hd
  · have hc : exchangeCore env she =
        ([Event.adapterGetArgument, Event.rpcPull she a,
          Event.rpcGetPullArgument she], Except.error e) := by
      simp [exchangeCore, hga, hrp, hrg]
    refine ⟨⟨e, by simp [exchangeResult, hc]⟩, ?_⟩
    intro d hd
    unfold exchangeTrace at hd
    rw [hc] at hd
    simp at hd
  · have hc : exchangeCore env she =
        ([Event.adapterGetArgument, Event.rpcPull she a,
          Event.rpcGetPullArgument she] ++ pullEvents ha, Except.error e) := by
      simp [exchangeCore, hga, hrp, hrg, hpl]
    refine ⟨⟨e, by simp [exchangeResult, hc]⟩, ?_⟩
    intro d hdm
    unfold exchangeTrace at hdm
    rw [hc] at hdm
    simp at hdm
    obtain ⟨x, hx⟩ := mem_pullEvents ha (Event.adapterPush d) hdm
    exact absurd hx (by simp)
  · have hc : exchangeCore env she =
        ([Event.adapterGetArgument, Event.rpcPull she a,
          Event.rpcGetPullArgument she] ++ pullEvents ha ++
         [Event.rpcPush she m], Except.error e) := by
      simp [exchangeCore, hga, hrp, hrg, hpl, hps]
    refine ⟨⟨e, by simp [exchangeResult, hc]⟩, ?_⟩
    intro d hdm
    unfold exchangeTrace at hdm
    rw [hc] at hdm
    simp at hdm
    obtain ⟨x, hx⟩ := mem_pullEvents ha (Event.adapterPush d) hdm
    exact absurd hx (by simp)

/-- A completed exchange has exactly the six calls of spec section 4.5 in
source order, and it applies exactly the received raw diff to the model. -/
theorem exchange_ok_shape (env : MixEnv) (she : Peer) (v : Nat × Nat)
    (hok : exchangeResult env she = Except.ok v) :
    ∃ a pa m pd,
      exchangeTrace env she =
        [Event.adapterGetArgument, Event.rpcPull she a,
         Event.rpcGetPullArgument she, Event.adapterPull pa,
         Event.rpcPush she m, Event.adapterPush pd] ∧
      appliedDiffs env she = [pd] := by
  rcases exchangeCore_cases env she with
    ⟨e, hga, hc⟩ | ⟨a, e, hga, hrp, hc⟩ | ⟨a, hd, e, hga, hrp, hrg, hc⟩ |
    ⟨a, hd, ha, e, hga, hrp, hrg, hpl, hc⟩ |
    ⟨a, hd, ha, m, e, hga, hrp, hrg, hpl, hps, hc⟩ |
    ⟨a, hd, ha, m, e, hga, hrp, hrg, hpl, hps, hpu, hc⟩ |
    ⟨a, hd, ha, m, hga, hrp, hrg, hpl, hps, hpu, hc⟩
  · rw [exchangeResult, hc] at hok
    simp at hok
  · rw [exchangeResult, hc] at hok
    simp at hok
  · rw [exchangeResult, hc] at hok
    simp at hok
  · rw [exchangeResult, hc] at hok
    simp at hok
  · rw [exchangeResult, hc] at hok
    simp at hok
  · rw [exchangeResult, hc] at hok
    simp at hok
  · have hcu1 : checkUnpack ha = Except.ok ha.raw :=
      checkUnpack_of_pullResult env ha m hpl
    have hcu2 : checkUnpack hd = Except.ok hd.raw :=
      checkUnpack_of_pushResult env hd 0 hpu
    refine ⟨a, ha.raw, m, hd.raw, ?_, ?_⟩
    · unfold exchangeTrace
      rw [hc]
      simp [pullEvents, pushEvents, hcu1, hcu2]
    · unfold appliedDiffs
      rw [hc]

theorem filter_touches_other (env : MixEnv) (she q : Peer) (hne : she ≠ q) :
    (exchangeTrace env q).filter (touches she) = [] := by
  rw [List.filter_eq_nil_iff]
  intro ev hev ht
  exact hne (touches_exchangeTrace env q she ev hev ht)

theorem filter_touches_self (env : MixEnv) (she : Peer) (v : Nat × Nat)
    (hok : exchangeResult env she = Except.ok v) :
    ∃ a m, (exchangeTrace env she).filter (touches she) =
      [Event.rpcPull she a, Event.rpcGetPullArgument she, Event.rpcPush she m] := by
  obtain ⟨a, pa, m, pd, htr, hap⟩ := exchange_ok_shape env she v hok
  refine ⟨a, m, ?_⟩
  rw [htr]
  simp [touches, List.filter]

theorem filter_touches_flatMap (env : MixEnv) (she : Peer) :
    ∀ cs : List Peer, cs.Nodup → she ∈ cs →
      (cs.flatMap (exchangeTrace env)).filter (touches she) =
      (exchangeTrace env she).filter (touches she) := by
  intro cs
  induction cs with
  | nil => intro _ h; exact absurd h (by simp)
  | cons q rest ih =>
    intro hnd hmem
    obtain ⟨hqr, hndr⟩ := List.nodup_cons.mp hnd
    rw [List.flatMap_cons, List.filter_append]
    rcases List.mem_cons.mp hmem with rfl | hmem2
    · have hrest : (rest.flatMap (exchangeTrace env)).filter (touches she) = [] := by
        rw [List.filter_eq_nil_iff]
        intro ev hev ht
        obtain ⟨r, hr, hevr⟩ := List.mem_flatMap.mp hev
        have := touches_exchangeTrace env r she ev hevr ht
        rw [← this] at hr
        exact hqr hr
      rw [hrest, List.append_nil]
    · have hq : she ≠ q := by
        intro hcon
        rw [hcon] at hmem2
        exact hqr hmem2
      rw [filter_touches_other env she q hq, List.nil_append]
      exact ih hndr hmem2

theorem pushResult_ok_val (env : MixEnv) (obj : MsgObj) (n : Int)
    (h : pushResult env obj = Except.ok n) : n = 0 := by
  unfold pushResult at h
  rcases hcu : checkUnpack obj with e | d
  · rw [hcu] at h
    simp at h
  · rw [hcu] at h
    dsimp only at h
    rcases hmp : env.mixablePush d with e | u
    · rw [hmp] at h
      simp at h
    · rw [hmp] at h
      simp at h
      omega

theorem mix_loop_error_eq (env : MixEnv) (st : MixerState) (nodes : List Peer)
    (e : Exn) (evs0 : List Event) (st0 : MixerState)
    (hq : env.query = Except.ok nodes) (hn : nodes ≠ [])
    (hl : mixLoop env (env.filter nodes) st 0 0 = (evs0, st0, Except.error e)) :
    mix env st = if e.isStd = true then (evs0, st0, Except.ok ())
                 else (evs0, st0, Except.error e) := by
  unfold mix update_members
  rw [hq]
  dsimp only
  rw [if_neg (by simpa [List.length_eq_zero] using hn), hl]

theorem mix_loop_ok_eq (env : MixEnv) (st : MixerState) (nodes : List Peer)
    (v : Nat × Nat) (evs0 : List Event) (st0 : MixerState)
    (hq : env.query = Except.ok nodes) (hn : nodes ≠ [])
    (hl : mixLoop env (env.filter nodes) st 0 0 = (evs0, st0, Except.ok v)) :
    mix env st = (evs0, { st0 with mix_count := st0.mix_count + 1 },
      Except.ok ()) := by
  unfold mix update_members
  rw [hq]
  dsimp only
  rw [if_neg (by simpa [List.length_eq_zero] using hn), hl]

/-- A concrete oracle environment for witness evaluations: one live peer and
every external call succeeding. -/
def env0 : MixEnv :=
  { query := Except.ok [("h", 9)]
    filter := fun l => l
    getArgument := Except.ok [1]
    mixablePull := fun _ => Except.ok [2]
    mixablePush := fun _ => Except.ok ()
    rpcPull := fun _ _ => Except.ok { isRaw := true, raw := [3], unpackOk := true }
    rpcGetPullArgument := fun _ => Except.ok { isRaw := true, raw := [4], unpackOk := true }
    rpcPush := fun _ _ => Except.ok ()
    now := 7 }

/-- Claim C1 (amended): do_mix returns true exactly when mix returns without
an exception propagating out of it. Exceptions raised by the per-peer
exchange steps derive from std::exception and are caught inside mix, so they
do not make do_mix return false; only an exception escaping mix (such as one
from the membership refresh) does. -/
theorem do_mix_true_iff_mix_returns (env : MixEnv) (st : MixerState) :
    (do_mix env st).2.2 = true ↔
      (mix env { st with counter := 0, ticktime := env.now }).2.2 =
        Except.ok () := by
  unfold do_mix
  rcases hm : mix env { st with counter := 0, ticktime := env.now }
    with ⟨evs, st', r⟩
  rcases r with e | u
  · simp
  · simp

/-- An environment in which the RPC pull to the only candidate raises a
std::exception. -/
def envPullTimeout : MixEnv :=
  { env0 with rpcPull := fun _ _ => Except.error (Exn.std "timeout") }

/-- Claim C1, counterexample: a per-peer exchange step (the RPC pull) raises
an exception, yet do_mix returns true, because mix catches the
std::exception internally and returns normally. -/
theorem do_mix_true_despite_exchange_exception :
    envPullTimeout.rpcPull ("h", 9) [1] = Except.error (Exn.std "timeout") ∧
    (do_mix envPullTimeout (initState 0)).2.2 = true := ⟨rfl, rfl⟩

/-- An environment with one live peer but an empty candidate selection. -/
def envNoCandidates : MixEnv := { env0 with filter := fun _ => [] }

/-- Claim C2, counterexample: membership refresh returns one peer, the
candidate selector returns the empty list, and the round still increments
mix_count from 0 to 1 (the source logs "no server selected" but does not
return early). -/
theorem mix_count_incremented_with_empty_candidates :
    (mix envNoCandidates (initState 0)).2.1.mix_count = 1 ∧
    (initState 0).mix_count = 0 := ⟨rfl, rfl⟩

/-- Claim C2 (amended): with a nonzero peer count and an empty candidate
list, the round issues no call and logs, but completes as a successful empty
round: mix_count is incremented by one. -/
theorem mix_empty_candidates (env : MixEnv) (st : MixerState)
    (nodes : List Peer) (hq : env.query = Except.ok nodes) (hn : nodes ≠ [])
    (hf : env.filter nodes = []) :
    mix env st = ([], { st with mix_count := st.mix_count + 1 },
      Except.ok ()) := by
  refine mix_loop_ok_eq env st nodes (0, 0) [] st hq hn ?_
  rw [hf]
  rfl

/-- Claim C2, witness for the amended statement at a concrete environment. -/
theorem mix_empty_candidates_witness :
    mix envNoCandidates (initState 3) =
      ([], { initState 3 with mix_count := (initState 3).mix_count + 1 },
       Except.ok ()) :=
  mix_empty_candidates envNoCandidates (initState 3) [("h", 9)] rfl
    (by decide) rfl

/-- An environment in which the coordination-service membership query
raises. -/
def envQueryError : MixEnv :=
  { env0 with query := Except.error (Exn.std "zk error") }

/-- Claim C3, counterexample: when the membership query raises,
update_members propagates the exception instead of returning zero, and the
exception escapes mix. -/
theorem update_members_raises_through :
    update_members envQueryError = Except.error (Exn.std "zk error") ∧
    (mix envQueryError (initState 0)).2.2 =
      Except.error (Exn.std "zk error") := ⟨rfl, rfl⟩

/-- Claim C3 (amended): an exception from the membership query propagates out
of update_members and out of mix, whose update_members call sits outside the
try block; the round contacts no peer and mix_count is unchanged, but the
kicked round reports failure: do_mix returns false rather than treating the
error as zero peers. -/
theorem mix_query_error (env : MixEnv) (st : MixerState) (e : Exn)
    (hq : env.query = Except.error e) :
    mix env st = ([], st, Except.error e) ∧
    (do_mix env st).2.2 = false ∧
    (do_mix env st).2.1.mix_count = st.mix_count := by
  have hm : ∀ s : MixerState, mix env s = ([], s, Except.error e) := by
    intro s
    unfold mix update_members
    rw [hq]
  refine ⟨hm st, ?_, ?_⟩ <;>
    · unfold do_mix
      rw [hm { st with counter := 0, ticktime := env.now }]

/-- Claim C3, witness for the amended statement at a concrete environment. -/
theorem mix_query_error_witness :
    mix envQueryError (initState 0) =
      ([], initState 0, Except.error (Exn.std "zk error")) ∧
    (do_mix envQueryError (initState 0)).2.2 = false ∧
    (do_mix envQueryError (initState 0)).2.1.mix_count =
      (initState 0).mix_count :=
  mix_query_error envQueryError (initState 0) (Exn.std "zk error") rfl

/-- Claim C4, counterexample: with both thresholds zero, updated still
signals the condition, because counter >= 0 holds trivially and updated has
no threshold-positivity guard. -/
theorem updated_signals_with_zero_thresholds :
    (updated 0 0 5 (initState 0)).2 = true ∧
    (updated 0 0 5 (initState 0)).1.counter = 1 := ⟨rfl, rfl⟩

/-- Claim C4 (amended): updated increments counter by one, leaves ticktime,
mix_count and the model unchanged, and signals the condition if and only if
the incremented counter reaches count_threshold or now minus last_tick
exceeds tick_threshold, with no positivity guard on either threshold; the
positivity guards appear only in the worker-loop re-check. -/
theorem updated_spec (cth tth now : Nat) (st : MixerState) :
    (updated cth tth now st).1 = { st with counter := st.counter + 1 } ∧
    ((updated cth tth now st).2 = true ↔
      (cth ≤ st.counter + 1 ∨ tth < now - st.ticktime)) := by
  constructor
  · rfl
  · simp [updated]

/-- Claim C7: a successful invocation of the push handler returns 0, applies
the received raw diff to the model via the adapter, and resets counter to 0
and ticktime to the current time; mix_count is untouched. -/
theorem push_handler_ok (env : MixEnv) (obj : MsgObj) (st st' : MixerState)
    (n : Int) (h : push env obj st = (st', Except.ok n)) :
    n = 0 ∧ st'.counter = 0 ∧ st'.ticktime = env.now ∧
    st'.model = st.model ++ [obj.raw] ∧ st'.mix_count = st.mix_count := by
  unfold push at h
  rcases hpr : pushResult env obj with e | k
  · rw [hpr] at h
    simp at h
  · rw [hpr] at h
    have hk := pushResult_ok_val env obj k hpr
    dsimp only at h
    simp only [Prod.mk.injEq] at h
    obtain ⟨hst, hn⟩ := h
    have hkn : k = n := by simpa using hn
    subst hst
    refine ⟨by omega, rfl, rfl, rfl, rfl⟩

/-- A RAW diff object that unpacks successfully. -/
def objOK : MsgObj := { isRaw := true, raw := [5, 6], unpackOk := true }

/-- Claim C7, witness at a concrete diff object and state. -/
theorem push_handler_ok_witness :
    (0 : Int) = 0 ∧
    (⟨0, 7, 0, [[5, 6]]⟩ : MixerState).counter = 0 ∧
    (⟨0, 7, 0, [[5, 6]]⟩ : MixerState).ticktime = env0.now ∧
    (⟨0, 7, 0, [[5, 6]]⟩ : MixerState).model =
      (initState 0).model ++ [objOK.raw] ∧
    (⟨0, 7, 0, [[5, 6]]⟩ : MixerState).mix_count = (initState 0).mix_count :=
  push_handler_ok env0 objOK (initState 0) ⟨0, 7, 0, [[5, 6]]⟩ 0 rfl

/-- An environment whose membership query returns no peers. -/
def envNoPeers : MixEnv := { env0 with query := Except.ok [] }

/-- Claim C8: zero peers from refresh make the round a success-empty no-op:
mix logs a warning and returns with no event and an unchanged state, and
do_mix returns true with mix_count unchanged (the state keeps its mix_count,
so it stays 0 when no mix has succeeded yet). -/
theorem mix_zero_peers (env : MixEnv) (st : MixerState)
    (hq : env.query = Except.ok []) :
    mix env st = ([], st, Except.ok ()) ∧
    do_mix env st =
      ([], { st with counter := 0, ticktime := env.now }, true) := by
  have hm : ∀ s : MixerState, mix env s = ([], s, Except.ok ()) := by
    intro s
    unfold mix update_members
    rw [hq]
    rfl
  refine ⟨hm st, ?_⟩
  unfold do_mix
  rw [hm { st with counter := 0, ticktime := env.now }]

/-- Claim C8, witness at a concrete environment and state. -/
theorem mix_zero_peers_witness :
    mix envNoPeers (initState 2) = ([], initState 2, Except.ok ()) ∧
    do_mix envNoPeers (initState 2) =
      ([], { initState 2 with counter := 0, ticktime := envNoPeers.now },
       true) :=
  mix_zero_peers envNoPeers (initState 2) rfl

/-- Claim C9: the pull and get_pull_argument handlers leave the mixer state
(counter, ticktime, mix_count and the model) unchanged on every invocation;
among the four RPC handlers only push and do_mix write the counter state. -/
theorem pull_handlers_preserve_state (env : MixEnv) (obj : MsgObj)
    (st : MixerState) :
    (pull env obj st).1 = st ∧ (get_pull_argument env st).1 = st := ⟨rfl, rfl⟩

/-- Claim C5: if candidate `she` (reached after all candidates in `pre`
completed their exchange) raises in one of the five steps a-e, the whole
round aborts: mix_count is unchanged, no adapter push is performed for
`she`, the trace stops at the point of failure, and no peer beyond `pre` and
`she` is contacted. -/
theorem mix_aborts_round_on_exchange_exception
    (env : MixEnv) (st : MixerState) (nodes pre post : List Peer) (she : Peer)
    (evs : List Event) (st' : MixerState) (r : Except Exn Unit)
    (hq : env.query = Except.ok nodes) (hn : nodes ≠ [])
    (hf : env.filter nodes = pre ++ she :: post)
    (hpre : ∀ q ∈ pre, ∃ v, exchangeResult env q = Except.ok v)
    (hshe : failsBeforeLocalPush env she)
    (hmix : mix env st = (evs, st', r)) :
    st'.mix_count = st.mix_count ∧
    evs = pre.flatMap (exchangeTrace env) ++ exchangeTrace env she ∧
    (∀ d, Event.adapterPush d ∉ exchangeTrace env she) ∧
    (∀ q ev, ev ∈ evs → touches q ev = true → q ∈ pre ∨ q = she) := by
  obtain ⟨⟨e, he⟩, hnp⟩ := failsBefore_spec env she hshe
  have hl : mixLoop env (env.filter nodes) st 0 0 =
      (pre.flatMap (exchangeTrace env) ++ exchangeTrace env she,
       roundState env pre st, Except.error e) := by
    rw [hf]
    exact mixLoop_fail env pre she post e hpre he st 0 0
  rw [mix_loop_error_eq env st nodes e _ _ hq hn hl] at hmix
  have hcomp : evs = pre.flatMap (exchangeTrace env) ++ exchangeTrace env she ∧
      st' = roundState env pre st := by
    cases hb : e.isStd
    · simp only [hb, Bool.false_eq_true, if_false, Prod.mk.injEq] at hmix
      exact ⟨hmix.1.symm, hmix.2.1.symm⟩
    · simp only [hb, if_true, Prod.mk.injEq] at hmix
      exact ⟨hmix.1.symm, hmix.2.1.symm⟩
  obtain ⟨hevs, hst⟩ := hcomp
  refine ⟨?_, hevs, hnp, ?_⟩
  · rw [hst, roundState_mix_count]
  · intro q ev hev ht
    rw [hevs] at hev
    rcases List.mem_append.mp hev with h1 | h2
    · obtain ⟨p, hp, hevp⟩ := List.mem_flatMap.mp h1
      have hqp := touches_exchangeTrace env p q ev hevp ht
      rw [hqp]
      exact Or.inl hp
    · exact Or.inr (touches_exchangeTrace env she q ev h2 ht)

/-- Claim C6: when the candidate loop completes, the events of the round are
exactly the per-candidate six-call blocks (local get_argument, RPC pull, RPC
get_pull_argument, local adapter pull, RPC push, local adapter push) in
candidate list order, and for each candidate the RPC calls addressed to it
are exactly pull, get_pull_argument, push in that order, with no other RPC
of this round addressed to it. -/
theorem mix_round_call_order (env : MixEnv) (cs : List Peer) (st : MixerState)
    (evs : List Event) (st' : MixerState) (v : Nat × Nat)
    (hrun : mixLoop env cs st 0 0 = (evs, st', Except.ok v)) (hnd : cs.Nodup) :
    evs = cs.flatMap (exchangeTrace env) ∧
    ∀ she ∈ cs, ∃ a pa m pd,
      exchangeTrace env she =
        [Event.adapterGetArgument, Event.rpcPull she a,
         Event.rpcGetPullArgument she, Event.adapterPull pa,
         Event.rpcPush she m, Event.adapterPush pd] ∧
      evs.filter (touches she) =
        [Event.rpcPull she a, Event.rpcGetPullArgument she,
         Event.rpcPush she m] := by
  have hall := mixLoop_ok_all env cs st 0 0 evs st' v hrun
  obtain ⟨w, hw⟩ := mixLoop_all_ok env cs hall st 0 0
  rw [hrun] at hw
  simp only [Prod.mk.injEq] at hw
  obtain ⟨hevs, hst, hv⟩ := hw
  refine ⟨hevs, ?_⟩
  intro she hshe
  obtain ⟨x, hx⟩ := hall she hshe
  obtain ⟨a, pa, m, pd, htr, hap⟩ := exchange_ok_shape env she x hx
  refine ⟨a, pa, m, pd, htr, ?_⟩
  rw [hevs, filter_touches_flatMap env she cs hnd hshe, htr]
  simp [touches, List.filter]

/-- Claim C6, witness: two distinct candidates processed by the loop at a
concrete all-success environment. -/
theorem mix_round_call_order_witness :
    ((mixLoop env0 [("a", 1), ("b", 2)] (initState 0) 0 0).1 =
      [(("a" : String), (1 : Int)), ("b", 2)].flatMap (exchangeTrace env0) ∧
     ∀ she ∈ [(("a" : String), (1 : Int)), ("b", 2)], ∃ a pa m pd,
       exchangeTrace env0 she =
         [Event.adapterGetArgument, Event.rpcPull she a,
          Event.rpcGetPullArgument she, Event.adapterPull pa,
          Event.rpcPush she m, Event.adapterPush pd] ∧
       ((mixLoop env0 [("a", 1), ("b", 2)] (initState 0) 0 0).1).filter
           (touches she) =
         [Event.rpcPull she a, Event.rpcGetPullArgument she,
          Event.rpcPush she m]) :=
  mix_round_call_order env0 [("a", 1), ("b", 2)] (initState 0)
    (mixLoop env0 [("a", 1), ("b", 2)] (initState 0) 0 0).1
    (mixLoop env0 [("a", 1), ("b", 2)] (initState 0) 0 0).2.1
    (2, 2) rfl (by decide)

/-- Claim C10: when the exchange with `she` raises anywhere in its six steps
(including step f, the local push for `she`, whose RAW check, unpack or
mixable->push can throw) after every candidate in `pre` completed, the diffs
already applied for the candidates in `pre` remain applied to the model
(exactly one received diff per completed candidate); nothing is rolled
back. -/
theorem mix_abort_no_rollback
    (env : MixEnv) (st : MixerState) (nodes pre post : List Peer) (she : Peer)
    (evs : List Event) (st' : MixerState) (r : Except Exn Unit) (e : Exn)
    (hq : env.query = Except.ok nodes) (hn : nodes ≠ [])
    (hf : env.filter nodes = pre ++ she :: post)
    (hpre : ∀ q ∈ pre, ∃ v, exchangeResult env q = Except.ok v)
    (hshe : exchangeResult env she = Except.error e)
    (hmix : mix env st = (evs, st', r)) :
    st'.model = st.model ++ pre.flatMap (fun q => appliedDiffs env q) ∧
    ∀ q ∈ pre, ∃ d, appliedDiffs env q = [d] := by
  have hl : mixLoop env (env.filter nodes) st 0 0 =
      (pre.flatMap (exchangeTrace env) ++ exchangeTrace env she,
       roundState env pre st, Except.error e) := by
    rw [hf]
    exact mixLoop_fail env pre she post e hpre hshe st 0 0
  rw [mix_loop_error_eq env st nodes e _ _ hq hn hl] at hmix
  have hst : st' = roundState env pre st := by
    cases hb : e.isStd
    · simp only [hb, Bool.false_eq_true, if_false, Prod.mk.injEq] at hmix
      exact hmix.2.1.symm
    · simp only [hb, if_true, Prod.mk.injEq] at hmix
      exact hmix.2.1.symm
  refine ⟨?_, ?_⟩
  · rw [hst, roundState_model env pre hpre st]
  · intro q hq2
    obtain ⟨x, hx⟩ := hpre q hq2
    obtain ⟨a, pa, m, pd, htr, hap⟩ := exchange_ok_shape env q x hx
    exact ⟨pd, hap⟩

/-- Two live peers; the exchange with the first succeeds and the RPC pull to
the second raises a std::exception. -/
def envSecondPeerFails : MixEnv :=
  { env0 with
    query := Except.ok [("a", 1), ("b", 2)]
    rpcPull := fun p _ =>
      if p = ("b", 2) then Except.error (Exn.std "timeout")
      else Except.ok { isRaw := true, raw := [3], unpackOk := true } }

/-- Claim C5, witness: the first peer completes, the RPC pull to the second
times out, and the aborted round keeps mix_count unchanged, performs no
adapter push for the failing peer, and contacts no peer beyond the two. -/
theorem mix_aborts_round_witness :
    failsBeforeLocalPush envSecondPeerFails ("b", 2) ∧
    ((mix envSecondPeerFails (initState 0)).2.1.mix_count =
        (initState 0).mix_count ∧
     (mix envSecondPeerFails (initState 0)).1 =
       [(("a" : String), (1 : Int))].flatMap
           (exchangeTrace envSecondPeerFails) ++
         exchangeTrace envSecondPeerFails ("b", 2) ∧
     (∀ d, Event.adapterPush d ∉ exchangeTrace envSecondPeerFails ("b", 2)) ∧
     (∀ q ev, ev ∈ (mix envSecondPeerFails (initState 0)).1 →
        touches q ev = true →
        q ∈ [(("a" : String), (1 : Int))] ∨ q = ("b", 2))) := by
  have hfails : failsBeforeLocalPush envSecondPeerFails ("b", 2) :=
    Or.inr (Or.inl ⟨[1], Exn.std "timeout", rfl, rfl⟩)
  have hpre : ∀ q ∈ [(("a" : String), (1 : Int))], ∃ v,
      exchangeResult envSecondPeerFails q = Except.ok v := by
    intro q hq
    simp at hq
    subst hq
    exact ⟨(1, 1), rfl⟩
  exact ⟨hfails, mix_aborts_round_on_exchange_exception envSecondPeerFails
    (initState 0) [("a", 1), ("b", 2)] [("a", 1)] [] ("b", 2)
    (mix envSecondPeerFails (initState 0)).1
    (mix envSecondPeerFails (initState 0)).2.1
    (mix envSecondPeerFails (initState 0)).2.2
    rfl (by decide) rfl hpre hfails rfl⟩

/-- Claim C10, witness: after the aborted round of the same scenario, the
diff received from the first peer is still applied to the model. -/
theorem mix_abort_no_rollback_witness :
    ((mix envSecondPeerFails (initState 0)).2.1.model =
        (initState 0).model ++
          [(("a" : String), (1 : Int))].flatMap
            (fun q => appliedDiffs envSecondPeerFails q) ∧
     ∀ q ∈ [(("a" : String), (1 : Int))], ∃ d,
        appliedDiffs envSecondPeerFails q = [d]) := by
  have hshe : exchangeResult envSecondPeerFails ("b", 2) =
      Except.error (Exn.std "timeout") := rfl
  have hpre : ∀ q ∈ [(("a" : String), (1 : Int))], ∃ v,
      exchangeResult envSecondPeerFails q = Except.ok v := by
    intro q hq
    simp at hq
    subst hq
    exact ⟨(1, 1), rfl⟩
  exact mix_abort_no_rollback envSecondPeerFails (initState 0)
    [("a", 1), ("b", 2)] [("a", 1)] [] ("b", 2)
    (mix envSecondPeerFails (initState 0)).1
    (mix envSecondPeerFails (initState 0)).2.1
    (mix envSecondPeerFails (initState 0)).2.2
    (Exn.std "timeout") rfl (by decide) rfl hpre hshe rfl

end PushMixer
